import Mathlib

/-!
Verification of the line-integral-convolution (LIC) kernel from
`src/line_integral_convolutions/lic.py`.

The embedding follows the source closely:

* `taper_pixel_contribution` embeds the cosine taper weight.
* `advect_streamline` is modelled as a small state machine: `AdvectState`
  holds the loop state of one advection call (accumulated weighted sum and
  total weight, the continuous position, and whether the Python loop has
  executed a `break`), `advectStep` is one iteration of the `for step in
  range(streamlength)` loop, `advectLoop` iterates it, and
  `advect_streamline` returns the accumulated pair.
* Python float arithmetic is modelled over `ℝ`; the IEEE `+inf` produced by
  dividing by an exactly-zero velocity is modelled by `EReal` (`⊤`), and the
  Python float `%` operator by `pymod`.
* `_compute_lic` is the per-pixel reduction driver; `runSchedule` models an
  arbitrary partitioning of the pixel tasks into a sequential write order
  over a shared output buffer.
-/

open Classical

noncomputable section

/-- Python: `a % n` on floats (`a - n * floor(a / n)`). -/
def pymod (a n : ℝ) : ℝ := a - n * ⌊a / n⌋

/-- Source function `taper_pixel_contribution(streamlength, step_index)`:
`0.5 * (1 + np.cos(np.pi * step_index / streamlength))`. -/
def taper_pixel_contribution (streamlength step_index : ℕ) : ℝ :=
  0.5 * (1 + Real.cos (Real.pi * step_index / streamlength))

/-- Time for the streamline to reach the next integer cell boundary on one
axis, as in the source: `(floor(pos) + 1 - pos) / vel` for positive
velocity, `(ceil(pos) - 1 - pos) / vel` for negative velocity, and IEEE
`+inf` (modelled as `⊤ : EReal`) for an exactly-zero velocity. -/
def delta_time (pos vel : ℝ) : EReal :=
  if 0 < vel then ((((⌊pos⌋ : ℝ) + 1 - pos) / vel : ℝ) : EReal)
  else if vel < 0 then ((((⌈pos⌉ : ℝ) - 1 - pos) / vel : ℝ) : EReal)
  else ⊤

/-- Loop state of one `advect_streamline` call: the two accumulators, the
continuous position, and whether the Python loop has executed `break`. -/
structure AdvectState where
  weighted_sum : ℝ
  total_weight : ℝ
  row_float : ℝ
  col_float : ℝ
  done : Bool

/-- Initial state of an advection call seeded at `(start_row, start_col)`. -/
def initState (start_row start_col : ℤ) : AdvectState :=
  { weighted_sum := 0
    total_weight := 0
    row_float := (start_row : ℝ)
    col_float := (start_col : ℝ)
    done := false }

/-- One iteration (index `step`) of the `for step in range(streamlength)`
loop of `advect_streamline`.  A state with `done = true` records that the
Python loop has already exited via `break`; the step is then the identity. -/
def advectStep (vfield : Fin 2 → ℤ → ℤ → ℝ) (sfield_in : ℤ → ℤ → ℝ)
    (dir_sgn : ℤ) (streamlength : ℕ) (num_rows num_cols : ℕ)
    (bool_periodic_BCs : Bool) (step : ℕ) (s : AdvectState) : AdvectState :=
  if s.done then s else
  let row_int : ℤ := ⌊s.row_float⌋
  let col_int : ℤ := ⌊s.col_float⌋
  let vel_col : ℝ := (dir_sgn : ℝ) * vfield 0 row_int col_int
  let vel_row : ℝ := (dir_sgn : ℝ) * vfield 1 row_int col_int
  if |vel_row| = 0 ∧ |vel_col| = 0 then
    { s with done := true }
  else
    let delta_time_row : EReal := delta_time s.row_float vel_row
    let delta_time_col : EReal := delta_time s.col_float vel_col
    let time_step : ℝ := (min delta_time_col delta_time_row).toReal
    let col1 : ℝ := s.col_float + vel_col * time_step
    let row1 : ℝ := s.row_float + vel_row * time_step
    if bool_periodic_BCs then
      let row2 := pymod (row1 + (num_rows : ℝ)) (num_rows : ℝ)
      let col2 := pymod (col1 + (num_cols : ℝ)) (num_cols : ℝ)
      let contribution_weight := taper_pixel_contribution streamlength step
      { weighted_sum := s.weighted_sum + contribution_weight * sfield_in row_int col_int
        total_weight := s.total_weight + contribution_weight
        row_float := row2
        col_float := col2
        done := false }
    else
      if ¬ (0 ≤ row1 ∧ row1 < (num_rows : ℝ) ∧ 0 ≤ col1 ∧ col1 < (num_cols : ℝ)) then
        { s with row_float := row1, col_float := col1, done := true }
      else
        let contribution_weight := taper_pixel_contribution streamlength step
        { weighted_sum := s.weighted_sum + contribution_weight * sfield_in row_int col_int
          total_weight := s.total_weight + contribution_weight
          row_float := row1
          col_float := col1
          done := false }

/-- State after the first `n` iterations of the advection loop. -/
def advectLoop (vfield : Fin 2 → ℤ → ℤ → ℝ) (sfield_in : ℤ → ℤ → ℝ)
    (start_row start_col : ℤ) (dir_sgn : ℤ) (streamlength : ℕ)
    (num_rows num_cols : ℕ) (bool_periodic_BCs : Bool) : ℕ → AdvectState
  | 0 => initState start_row start_col
  | n + 1 =>
      advectStep vfield sfield_in dir_sgn streamlength num_rows num_cols
        bool_periodic_BCs n
        (advectLoop vfield sfield_in start_row start_col dir_sgn streamlength
          num_rows num_cols bool_periodic_BCs n)

/-- Source function `advect_streamline`: run the loop for `streamlength`
iterations and return `(weighted_sum, total_weight)`. -/
def advect_streamline (vfield : Fin 2 → ℤ → ℤ → ℝ) (sfield_in : ℤ → ℤ → ℝ)
    (start_row start_col : ℤ) (dir_sgn : ℤ) (streamlength : ℕ)
    (num_rows num_cols : ℕ) (bool_periodic_BCs : Bool) : ℝ × ℝ :=
  let s := advectLoop vfield sfield_in start_row start_col dir_sgn streamlength
    num_rows num_cols bool_periodic_BCs streamlength
  (s.weighted_sum, s.total_weight)

/-- The value `_compute_lic` writes at pixel `(row, col)`: forward plus
backward advection, normalised by the combined weight when positive, else
`0`. -/
def compute_lic_pixel (vfield : Fin 2 → ℤ → ℤ → ℝ) (sfield_in : ℤ → ℤ → ℝ)
    (streamlength : ℕ) (num_rows num_cols : ℕ) (bool_periodic_BCs : Bool)
    (row col : ℕ) : ℝ :=
  let forward := advect_streamline vfield sfield_in (row : ℤ) (col : ℤ) 1
    streamlength num_rows num_cols bool_periodic_BCs
  let backward := advect_streamline vfield sfield_in (row : ℤ) (col : ℤ) (-1)
    streamlength num_rows num_cols bool_periodic_BCs
  let total_sum := forward.1 + backward.1
  let total_weight := forward.2 + backward.2
  if total_weight > 0 then total_sum / total_weight else 0

/-- Source function `_compute_lic`: the output grid, every pixel computed
independently from its own seed coordinate. -/
def compute_lic (vfield : Fin 2 → ℤ → ℤ → ℝ) (sfield_in : ℤ → ℤ → ℝ)
    (streamlength : ℕ) (num_rows num_cols : ℕ) (bool_periodic_BCs : Bool) :
    ℕ → ℕ → ℝ :=
  fun row col =>
    compute_lic_pixel vfield sfield_in streamlength num_rows num_cols
      bool_periodic_BCs row col

/-- Write value `v` at pixel `p` of the output buffer `g`. -/
def writePixel (g : ℕ → ℕ → ℝ) (p : ℕ × ℕ) (v : ℝ) : ℕ → ℕ → ℝ :=
  fun r c => if r = p.1 ∧ c = p.2 then v else g r c

/-- Execute the pixel tasks listed in `sched` (an arbitrary partitioning /
interleaving of the parallel loop) sequentially over a shared output
buffer: each task writes its own pixel's value. -/
def runSchedule (vfield : Fin 2 → ℤ → ℤ → ℝ) (sfield_in : ℤ → ℤ → ℝ)
    (streamlength : ℕ) (num_rows num_cols : ℕ) (bool_periodic_BCs : Bool)
    (sched : List (ℕ × ℕ)) (g : ℕ → ℕ → ℝ) : ℕ → ℕ → ℝ :=
  sched.foldl
    (fun g p =>
      writePixel g p
        (compute_lic_pixel vfield sfield_in streamlength num_rows num_cols
          bool_periodic_BCs p.1 p.2))
    g

/-! ### Basic facts about `pymod` -/

lemma pymod_eq_fract (a n : ℝ) (hn : n ≠ 0) :
    pymod a n = n * Int.fract (a / n) := by
  unfold pymod Int.fract
  rw [mul_sub, mul_comm n (a / n), div_mul_cancel₀ a hn]

lemma pymod_nonneg (a n : ℝ) (hn : 0 < n) : 0 ≤ pymod a n := by
  rw [pymod_eq_fract a n hn.ne']
  exact mul_nonneg hn.le (Int.fract_nonneg _)

lemma pymod_lt (a n : ℝ) (hn : 0 < n) : pymod a n < n := by
  rw [pymod_eq_fract a n hn.ne']
  calc n * Int.fract (a / n) < n * 1 :=
        (mul_lt_mul_left hn).mpr (Int.fract_lt_one _)
    _ = n := mul_one n

lemma pymod_add_self (r n : ℝ) (h0 : 0 ≤ r) (h1 : r < n) :
    pymod (r + n) n = r := by
  have hn : 0 < n := lt_of_le_of_lt h0 h1
  rw [pymod_eq_fract _ n hn.ne']
  have hdiv : (r + n) / n = r / n + 1 := by
    rw [add_div, div_self hn.ne']
  rw [hdiv, Int.fract_add_one]
  have hfr : Int.fract (r / n) = r / n :=
    Int.fract_eq_self.mpr ⟨div_nonneg h0 hn.le, (div_lt_one hn).mpr h1⟩
  rw [hfr, mul_div_cancel₀ r hn.ne']

/-! ### Basic facts about `delta_time` -/

lemma delta_time_of_pos (pos vel : ℝ) (h : 0 < vel) :
    delta_time pos vel = ((((⌊pos⌋ : ℝ) + 1 - pos) / vel : ℝ) : EReal) := by
  unfold delta_time
  rw [if_pos h]

lemma delta_time_of_neg (pos vel : ℝ) (h : vel < 0) :
    delta_time pos vel = ((((⌈pos⌉ : ℝ) - 1 - pos) / vel : ℝ) : EReal) := by
  unfold delta_time
  rw [if_neg (not_lt.mpr h.le), if_pos h]

lemma delta_time_of_zero (pos vel : ℝ) (h : vel = 0) :
    delta_time pos vel = ⊤ := by
  unfold delta_time
  rw [if_neg (by rw [h]; exact lt_irrefl 0), if_neg (by rw [h]; exact lt_irrefl 0)]

lemma delta_time_finite (pos vel : ℝ) (h : vel ≠ 0) :
    ∃ t : ℝ, delta_time pos vel = (t : EReal) := by
  rcases lt_or_gt_of_ne h with hneg | hpos
  · exact ⟨_, delta_time_of_neg pos vel hneg⟩
  · exact ⟨_, delta_time_of_pos pos vel hpos⟩

lemma min_delta_time_finite (row col vel_row vel_col : ℝ)
    (h : ¬ (vel_row = 0 ∧ vel_col = 0)) :
    ∃ t : ℝ,
      min (delta_time col vel_col) (delta_time row vel_row) = (t : EReal) := by
  by_cases hc : vel_col = 0
  · have hr : vel_row ≠ 0 := by
      intro hr0
      exact h ⟨hr0, hc⟩
    obtain ⟨t, ht⟩ := delta_time_finite row vel_row hr
    refine ⟨t, ?_⟩
    rw [delta_time_of_zero col vel_col hc, ht, min_comm]
    exact min_eq_left le_top
  · obtain ⟨t, ht⟩ := delta_time_finite col vel_col hc
    rcases le_or_lt (delta_time col vel_col) (delta_time row vel_row) with hle | hlt
    · exact ⟨t, by rw [min_eq_left hle, ht]⟩
    · rcases eq_or_ne vel_row 0 with hr | hr
      · rw [delta_time_of_zero row vel_row hr] at hlt
        exact absurd hlt not_top_lt
      · obtain ⟨u, hu⟩ := delta_time_finite row vel_row hr
        exact ⟨u, by rw [min_eq_right hlt.le, hu]⟩

/-! ### Basic facts about the taper weight -/

lemma taper_arg_mem (streamlength step_index : ℕ) (h : step_index < streamlength) :
    0 ≤ Real.pi * step_index / streamlength ∧
      Real.pi * step_index / streamlength < Real.pi := by
  have hL : 0 < (streamlength : ℝ) := by
    exact_mod_cast Nat.zero_lt_of_lt h
  constructor
  · exact div_nonneg (mul_nonneg Real.pi_pos.le (Nat.cast_nonneg _)) hL.le
  · rw [div_lt_iff₀ hL]
    have hs : (step_index : ℝ) < streamlength := by exact_mod_cast h
    nlinarith [Real.pi_pos]

lemma taper_pos (streamlength step_index : ℕ) (h : step_index < streamlength) :
    0 < taper_pixel_contribution streamlength step_index := by
  obtain ⟨h0, h1⟩ := taper_arg_mem streamlength step_index h
  have hcos : Real.cos Real.pi < Real.cos (Real.pi * step_index / streamlength) :=
    Real.strictAntiOn_cos ⟨h0, h1.le⟩ ⟨Real.pi_pos.le, le_refl _⟩ h1
  rw [Real.cos_pi] at hcos
  unfold taper_pixel_contribution
  nlinarith [hcos]

lemma taper_nonneg (streamlength step_index : ℕ) :
    0 ≤ taper_pixel_contribution streamlength step_index := by
  unfold taper_pixel_contribution
  nlinarith [Real.neg_one_le_cos (Real.pi * step_index / streamlength)]

/-! ### Characterisation of one advection step -/

/-- The direction-scaled velocity component sampled at the current cell
(component `0` is the column velocity, component `1` the row velocity). -/
def step_vel (vfield : Fin 2 → ℤ → ℤ → ℝ) (dir_sgn : ℤ) (i : Fin 2)
    (s : AdvectState) : ℝ :=
  (dir_sgn : ℝ) * vfield i ⌊s.row_float⌋ ⌊s.col_float⌋

/-- The step time chosen by the CFL condition: minimum of the two per-axis
cell-boundary crossing times. -/
def step_time (vfield : Fin 2 → ℤ → ℤ → ℝ) (dir_sgn : ℤ) (s : AdvectState) : ℝ :=
  (min (delta_time s.col_float (step_vel vfield dir_sgn 0 s))
    (delta_time s.row_float (step_vel vfield dir_sgn 1 s))).toReal

lemma advectStep_of_done (vfield : Fin 2 → ℤ → ℤ → ℝ) (sfield_in : ℤ → ℤ → ℝ)
    (dir_sgn : ℤ) (streamlength num_rows num_cols : ℕ) (p : Bool) (k : ℕ)
    (s : AdvectState) (h : s.done = true) :
    advectStep vfield sfield_in dir_sgn streamlength num_rows num_cols p k s = s := by
  simp [advectStep, h]

lemma advectStep_of_stall (vfield : Fin 2 → ℤ → ℤ → ℝ) (sfield_in : ℤ → ℤ → ℝ)
    (dir_sgn : ℤ) (streamlength num_rows num_cols : ℕ) (p : Bool) (k : ℕ)
    (s : AdvectState) (h : s.done = false)
    (hvr : step_vel vfield dir_sgn 1 s = 0)
    (hvc : step_vel vfield dir_sgn 0 s = 0) :
    advectStep vfield sfield_in dir_sgn streamlength num_rows num_cols p k s =
      { s with done := true } := by
  unfold step_vel at hvr hvc
  simp [advectStep, h, hvr, hvc]

lemma advectStep_periodic (vfield : Fin 2 → ℤ → ℤ → ℝ) (sfield_in : ℤ → ℤ → ℝ)
    (dir_sgn : ℤ) (streamlength num_rows num_cols : ℕ) (k : ℕ)
    (s : AdvectState) (h : s.done = false)
    (hstall : ¬ (step_vel vfield dir_sgn 1 s = 0 ∧ step_vel vfield dir_sgn 0 s = 0)) :
    advectStep vfield sfield_in dir_sgn streamlength num_rows num_cols true k s =
      { weighted_sum := s.weighted_sum +
          taper_pixel_contribution streamlength k * sfield_in ⌊s.row_float⌋ ⌊s.col_float⌋
        total_weight := s.total_weight + taper_pixel_contribution streamlength k
        row_float := pymod (s.row_float + step_vel vfield dir_sgn 1 s *
          step_time vfield dir_sgn s + (num_rows : ℝ)) (num_rows : ℝ)
        col_float := pymod (s.col_float + step_vel vfield dir_sgn 0 s *
          step_time vfield dir_sgn s + (num_cols : ℝ)) (num_cols : ℝ)
        done := false } := by
  unfold step_vel at hstall
  simp only [advectStep, h, Bool.false_eq_true, if_false, abs_eq_zero, if_neg hstall,
    if_true, step_time, step_vel]

lemma advectStep_open_move (vfield : Fin 2 → ℤ → ℤ → ℝ) (sfield_in : ℤ → ℤ → ℝ)
    (dir_sgn : ℤ) (streamlength num_rows num_cols : ℕ) (k : ℕ)
    (s : AdvectState) (h : s.done = false)
    (hstall : ¬ (step_vel vfield dir_sgn 1 s = 0 ∧ step_vel vfield dir_sgn 0 s = 0))
    (hin : 0 ≤ s.row_float + step_vel vfield dir_sgn 1 s * step_time vfield dir_sgn s ∧
      s.row_float + step_vel vfield dir_sgn 1 s * step_time vfield dir_sgn s < (num_rows : ℝ) ∧
      0 ≤ s.col_float + step_vel vfield dir_sgn 0 s * step_time vfield dir_sgn s ∧
      s.col_float + step_vel vfield dir_sgn 0 s * step_time vfield dir_sgn s < (num_cols : ℝ)) :
    advectStep vfield sfield_in dir_sgn streamlength num_rows num_cols false k s =
      { weighted_sum := s.weighted_sum +
          taper_pixel_contribution streamlength k * sfield_in ⌊s.row_float⌋ ⌊s.col_float⌋
        total_weight := s.total_weight + taper_pixel_contribution streamlength k
        row_float := s.row_float + step_vel vfield dir_sgn 1 s * step_time vfield dir_sgn s
        col_float := s.col_float + step_vel vfield dir_sgn 0 s * step_time vfield dir_sgn s
        done := false } := by
  unfold step_vel at hstall
  unfold step_time step_vel at hin
  simp only [advectStep, h, Bool.false_eq_true, if_false, abs_eq_zero, if_neg hstall,
    step_time, step_vel]
  rw [if_neg (not_not_intro hin)]

lemma advectStep_open_exit (vfield : Fin 2 → ℤ → ℤ → ℝ) (sfield_in : ℤ → ℤ → ℝ)
    (dir_sgn : ℤ) (streamlength num_rows num_cols : ℕ) (k : ℕ)
    (s : AdvectState) (h : s.done = false)
    (hstall : ¬ (step_vel vfield dir_sgn 1 s = 0 ∧ step_vel vfield dir_sgn 0 s = 0))
    (hout : ¬ (0 ≤ s.row_float + step_vel vfield dir_sgn 1 s * step_time vfield dir_sgn s ∧
      s.row_float + step_vel vfield dir_sgn 1 s * step_time vfield dir_sgn s < (num_rows : ℝ) ∧
      0 ≤ s.col_float + step_vel vfield dir_sgn 0 s * step_time vfield dir_sgn s ∧
      s.col_float + step_vel vfield dir_sgn 0 s * step_time vfield dir_sgn s < (num_cols : ℝ))) :
    advectStep vfield sfield_in dir_sgn streamlength num_rows num_cols false k s =
      { s with
        row_float := s.row_float + step_vel vfield dir_sgn 1 s * step_time vfield dir_sgn s
        col_float := s.col_float + step_vel vfield dir_sgn 0 s * step_time vfield dir_sgn s
        done := true } := by
  unfold step_vel at hstall
  unfold step_time step_vel at hout
  simp only [advectStep, h, Bool.false_eq_true, if_false, abs_eq_zero, if_neg hstall,
    step_time, step_vel]
  rw [if_pos hout]

/-! ### Position invariants of the advection loop -/

/-- The continuous position `(row, col)` lies inside the domain
`[0, num_rows) × [0, num_cols)`. -/
def inDomain (num_rows num_cols : ℕ) (row col : ℝ) : Prop :=
  0 ≤ row ∧ row < (num_rows : ℝ) ∧ 0 ≤ col ∧ col < (num_cols : ℝ)

lemma advectStep_inDomain_periodic (vfield : Fin 2 → ℤ → ℤ → ℝ)
    (sfield_in : ℤ → ℤ → ℝ) (dir_sgn : ℤ) (streamlength num_rows num_cols : ℕ)
    (k : ℕ) (s : AdvectState) (hR : 0 < num_rows) (hC : 0 < num_cols)
    (h : inDomain num_rows num_cols s.row_float s.col_float) :
    inDomain num_rows num_cols
      (advectStep vfield sfield_in dir_sgn streamlength num_rows num_cols true k s).row_float
      (advectStep vfield sfield_in dir_sgn streamlength num_rows num_cols true k s).col_float := by
  have hRr : (0 : ℝ) < (num_rows : ℝ) := by exact_mod_cast hR
  have hCr : (0 : ℝ) < (num_cols : ℝ) := by exact_mod_cast hC
  by_cases hdone : s.done = true
  · rw [advectStep_of_done _ _ _ _ _ _ _ _ _ hdone]
    exact h
  · rw [Bool.not_eq_true] at hdone
    by_cases hstall : step_vel vfield dir_sgn 1 s = 0 ∧ step_vel vfield dir_sgn 0 s = 0
    · rw [advectStep_of_stall _ _ _ _ _ _ _ _ _ hdone hstall.1 hstall.2]
      exact h
    · rw [advectStep_periodic _ _ _ _ _ _ _ _ hdone hstall]
      exact ⟨pymod_nonneg _ _ hRr, pymod_lt _ _ hRr, pymod_nonneg _ _ hCr, pymod_lt _ _ hCr⟩

lemma advectStep_done_periodic (vfield : Fin 2 → ℤ → ℤ → ℝ)
    (sfield_in : ℤ → ℤ → ℝ) (dir_sgn : ℤ) (streamlength num_rows num_cols : ℕ)
    (k : ℕ) (s : AdvectState)
    (h : (advectStep vfield sfield_in dir_sgn streamlength num_rows num_cols
      true k s).done = true) :
    s.done = true ∨
      (step_vel vfield dir_sgn 1 s = 0 ∧ step_vel vfield dir_sgn 0 s = 0) := by
  by_cases hdone : s.done = true
  · exact Or.inl hdone
  · rw [Bool.not_eq_true] at hdone
    by_cases hstall : step_vel vfield dir_sgn 1 s = 0 ∧ step_vel vfield dir_sgn 0 s = 0
    · exact Or.inr hstall
    · rw [advectStep_periodic _ _ _ _ _ _ _ _ hdone hstall] at h
      exact absurd h (by simp)

lemma advectLoop_inDomain_periodic (vfield : Fin 2 → ℤ → ℤ → ℝ)
    (sfield_in : ℤ → ℤ → ℝ) (start_row start_col : ℤ) (dir_sgn : ℤ)
    (streamlength num_rows num_cols : ℕ) (hR : 0 < num_rows) (hC : 0 < num_cols)
    (hr0 : 0 ≤ start_row) (hr1 : start_row < (num_rows : ℤ))
    (hc0 : 0 ≤ start_col) (hc1 : start_col < (num_cols : ℤ)) (k : ℕ) :
    inDomain num_rows num_cols
      (advectLoop vfield sfield_in start_row start_col dir_sgn streamlength
        num_rows num_cols true k).row_float
      (advectLoop vfield sfield_in start_row start_col dir_sgn streamlength
        num_rows num_cols true k).col_float := by
  induction k with
  | zero =>
      simp only [advectLoop, initState]
      refine ⟨?_, ?_, ?_, ?_⟩
      · exact_mod_cast hr0
      · exact_mod_cast hr1
      · exact_mod_cast hc0
      · exact_mod_cast hc1
  | succ n ih =>
      exact advectStep_inDomain_periodic _ _ _ _ _ _ _ _ hR hC ih

lemma floor_mem_of_inDomain (num_rows num_cols : ℕ) (row col : ℝ)
    (h : inDomain num_rows num_cols row col) :
    (0 ≤ ⌊row⌋ ∧ ⌊row⌋ < (num_rows : ℤ)) ∧ (0 ≤ ⌊col⌋ ∧ ⌊col⌋ < (num_cols : ℤ)) := by
  obtain ⟨h1, h2, h3, h4⟩ := h
  refine ⟨⟨?_, ?_⟩, ⟨?_, ?_⟩⟩
  · exact Int.le_floor.mpr (by exact_mod_cast h1)
  · exact Int.floor_lt.mpr (by exact_mod_cast h2)
  · exact Int.le_floor.mpr (by exact_mod_cast h3)
  · exact Int.floor_lt.mpr (by exact_mod_cast h4)

lemma advectStep_inDomain_open (vfield : Fin 2 → ℤ → ℤ → ℝ)
    (sfield_in : ℤ → ℤ → ℝ) (dir_sgn : ℤ) (streamlength num_rows num_cols : ℕ)
    (k : ℕ) (s : AdvectState)
    (hnext : (advectStep vfield sfield_in dir_sgn streamlength num_rows num_cols
      false k s).done = false) :
    inDomain num_rows num_cols
      (advectStep vfield sfield_in dir_sgn streamlength num_rows num_cols
        false k s).row_float
      (advectStep vfield sfield_in dir_sgn streamlength num_rows num_cols
        false k s).col_float := by
  by_cases hdone : s.done = true
  · rw [advectStep_of_done _ _ _ _ _ _ _ _ _ hdone] at hnext ⊢
    exact absurd hnext (by rw [hdone]; exact fun hcon => Bool.true_eq_false.mp hcon)
  · rw [Bool.not_eq_true] at hdone
    by_cases hstall : step_vel vfield dir_sgn 1 s = 0 ∧ step_vel vfield dir_sgn 0 s = 0
    · rw [advectStep_of_stall _ _ _ _ _ _ _ _ _ hdone hstall.1 hstall.2] at hnext
      exact absurd hnext (by simp)
    · by_cases hin : 0 ≤ s.row_float + step_vel vfield dir_sgn 1 s * step_time vfield dir_sgn s ∧
        s.row_float + step_vel vfield dir_sgn 1 s * step_time vfield dir_sgn s < (num_rows : ℝ) ∧
        0 ≤ s.col_float + step_vel vfield dir_sgn 0 s * step_time vfield dir_sgn s ∧
        s.col_float + step_vel vfield dir_sgn 0 s * step_time vfield dir_sgn s < (num_cols : ℝ)
      · rw [advectStep_open_move _ _ _ _ _ _ _ _ hdone hstall hin]
        exact hin
      · rw [advectStep_open_exit _ _ _ _ _ _ _ _ hdone hstall hin] at hnext
        exact absurd hnext (by simp)

lemma advectLoop_inDomain_open (vfield : Fin 2 → ℤ → ℤ → ℝ)
    (sfield_in : ℤ → ℤ → ℝ) (start_row start_col : ℤ) (dir_sgn : ℤ)
    (streamlength num_rows num_cols : ℕ)
    (hr0 : 0 ≤ start_row) (hr1 : start_row < (num_rows : ℤ))
    (hc0 : 0 ≤ start_col) (hc1 : start_col < (num_cols : ℤ)) (k : ℕ)
    (hk : (advectLoop vfield sfield_in start_row start_col dir_sgn streamlength
      num_rows num_cols false k).done = false) :
    inDomain num_rows num_cols
      (advectLoop vfield sfield_in start_row start_col dir_sgn streamlength
        num_rows num_cols false k).row_float
      (advectLoop vfield sfield_in start_row start_col dir_sgn streamlength
        num_rows num_cols false k).col_float := by
  cases k with
  | zero =>
      simp only [advectLoop, initState]
      refine ⟨?_, ?_, ?_, ?_⟩
      · exact_mod_cast hr0
      · exact_mod_cast hr1
      · exact_mod_cast hc0
      · exact_mod_cast hc1
  | succ n =>
      exact advectStep_inDomain_open _ _ _ _ _ _ _ _ hk

/-! ### Accumulator invariants -/

lemma advectStep_zero_sums (vfield : Fin 2 → ℤ → ℤ → ℝ) (sfield_in : ℤ → ℤ → ℝ)
    (dir_sgn : ℤ) (streamlength num_rows num_cols : ℕ) (p : Bool) (k : ℕ)
    (s : AdvectState) (hv : ∀ i r c, vfield i r c = 0)
    (h : s.weighted_sum = 0 ∧ s.total_weight = 0) :
    (advectStep vfield sfield_in dir_sgn streamlength num_rows num_cols
      p k s).weighted_sum = 0 ∧
    (advectStep vfield sfield_in dir_sgn streamlength num_rows num_cols
      p k s).total_weight = 0 := by
  by_cases hdone : s.done = true
  · rw [advectStep_of_done _ _ _ _ _ _ _ _ _ hdone]
    exact h
  · rw [Bool.not_eq_true] at hdone
    have hvr : step_vel vfield dir_sgn 1 s = 0 := by
      unfold step_vel
      rw [hv 1 ⌊s.row_float⌋ ⌊s.col_float⌋, mul_zero]
    have hvc : step_vel vfield dir_sgn 0 s = 0 := by
      unfold step_vel
      rw [hv 0 ⌊s.row_float⌋ ⌊s.col_float⌋, mul_zero]
    rw [advectStep_of_stall _ _ _ _ _ _ _ _ _ hdone hvr hvc]
    exact h

lemma advectLoop_zero_field (vfield : Fin 2 → ℤ → ℤ → ℝ) (sfield_in : ℤ → ℤ → ℝ)
    (start_row start_col : ℤ) (dir_sgn : ℤ) (streamlength num_rows num_cols : ℕ)
    (p : Bool) (hv : ∀ i r c, vfield i r c = 0) (k : ℕ) :
    (advectLoop vfield sfield_in start_row start_col dir_sgn streamlength
      num_rows num_cols p k).weighted_sum = 0 ∧
    (advectLoop vfield sfield_in start_row start_col dir_sgn streamlength
      num_rows num_cols p k).total_weight = 0 := by
  induction k with
  | zero => exact ⟨rfl, rfl⟩
  | succ n ih =>
      exact advectStep_zero_sums _ _ _ _ _ _ _ _ _ hv ih

lemma advectStep_bounds (vfield : Fin 2 → ℤ → ℤ → ℝ) (sfield_in : ℤ → ℤ → ℝ)
    (dir_sgn : ℤ) (streamlength num_rows num_cols : ℕ) (p : Bool) (k : ℕ)
    (s : AdvectState) (m M : ℝ)
    (hm : ∀ r c, m ≤ sfield_in r c) (hM : ∀ r c, sfield_in r c ≤ M)
    (h : 0 ≤ s.total_weight ∧ m * s.total_weight ≤ s.weighted_sum ∧
      s.weighted_sum ≤ M * s.total_weight) :
    0 ≤ (advectStep vfield sfield_in dir_sgn streamlength num_rows num_cols
        p k s).total_weight ∧
      m * (advectStep vfield sfield_in dir_sgn streamlength num_rows num_cols
        p k s).total_weight ≤
        (advectStep vfield sfield_in dir_sgn streamlength num_rows num_cols
          p k s).weighted_sum ∧
      (advectStep vfield sfield_in dir_sgn streamlength num_rows num_cols
        p k s).weighted_sum ≤
        M * (advectStep vfield sfield_in dir_sgn streamlength num_rows num_cols
          p k s).total_weight := by
  have hw : 0 ≤ taper_pixel_contribution streamlength k := taper_nonneg streamlength k
  have hv1 := hm ⌊s.row_float⌋ ⌊s.col_float⌋
  have hv2 := hM ⌊s.row_float⌋ ⌊s.col_float⌋
  by_cases hdone : s.done = true
  · rw [advectStep_of_done _ _ _ _ _ _ _ _ _ hdone]
    exact h
  · rw [Bool.not_eq_true] at hdone
    by_cases hstall : step_vel vfield dir_sgn 1 s = 0 ∧ step_vel vfield dir_sgn 0 s = 0
    · rw [advectStep_of_stall _ _ _ _ _ _ _ _ _ hdone hstall.1 hstall.2]
      exact h
    · cases p with
      | true =>
          rw [advectStep_periodic _ _ _ _ _ _ _ _ hdone hstall]
          refine ⟨add_nonneg h.1 hw, ?_, ?_⟩
          · show m * (s.total_weight + taper_pixel_contribution streamlength k) ≤
              s.weighted_sum + taper_pixel_contribution streamlength k *
                sfield_in ⌊s.row_float⌋ ⌊s.col_float⌋
            nlinarith [h.2.1, mul_le_mul_of_nonneg_left hv1 hw]
          · show s.weighted_sum + taper_pixel_contribution streamlength k *
              sfield_in ⌊s.row_float⌋ ⌊s.col_float⌋ ≤
              M * (s.total_weight + taper_pixel_contribution streamlength k)
            nlinarith [h.2.2, mul_le_mul_of_nonneg_left hv2 hw]
      | false =>
          by_cases hin : 0 ≤ s.row_float +
              step_vel vfield dir_sgn 1 s * step_time vfield dir_sgn s ∧
              s.row_float + step_vel vfield dir_sgn 1 s * step_time vfield dir_sgn s <
                (num_rows : ℝ) ∧
              0 ≤ s.col_float + step_vel vfield dir_sgn 0 s * step_time vfield dir_sgn s ∧
              s.col_float + step_vel vfield dir_sgn 0 s * step_time vfield dir_sgn s <
                (num_cols : ℝ)
          · rw [advectStep_open_move _ _ _ _ _ _ _ _ hdone hstall hin]
            refine ⟨add_nonneg h.1 hw, ?_, ?_⟩
            · show m * (s.total_weight + taper_pixel_contribution streamlength k) ≤
                s.weighted_sum + taper_pixel_contribution streamlength k *
                  sfield_in ⌊s.row_float⌋ ⌊s.col_float⌋
              nlinarith [h.2.1, mul_le_mul_of_nonneg_left hv1 hw]
            · show s.weighted_sum + taper_pixel_contribution streamlength k *
                sfield_in ⌊s.row_float⌋ ⌊s.col_float⌋ ≤
                M * (s.total_weight + taper_pixel_contribution streamlength k)
              nlinarith [h.2.2, mul_le_mul_of_nonneg_left hv2 hw]
          · rw [advectStep_open_exit _ _ _ _ _ _ _ _ hdone hstall hin]
            exact h

lemma advectLoop_bounds (vfield : Fin 2 → ℤ → ℤ → ℝ) (sfield_in : ℤ → ℤ → ℝ)
    (start_row start_col : ℤ) (dir_sgn : ℤ) (streamlength num_rows num_cols : ℕ)
    (p : Bool) (m M : ℝ)
    (hm : ∀ r c, m ≤ sfield_in r c) (hM : ∀ r c, sfield_in r c ≤ M) (k : ℕ) :
    0 ≤ (advectLoop vfield sfield_in start_row start_col dir_sgn streamlength
        num_rows num_cols p k).total_weight ∧
      m * (advectLoop vfield sfield_in start_row start_col dir_sgn streamlength
        num_rows num_cols p k).total_weight ≤
        (advectLoop vfield sfield_in start_row start_col dir_sgn streamlength
          num_rows num_cols p k).weighted_sum ∧
      (advectLoop vfield sfield_in start_row start_col dir_sgn streamlength
        num_rows num_cols p k).weighted_sum ≤
        M * (advectLoop vfield sfield_in start_row start_col dir_sgn streamlength
          num_rows num_cols p k).total_weight := by
  induction k with
  | zero =>
      refine ⟨le_refl 0, ?_, ?_⟩
      · show m * (0 : ℝ) ≤ 0
        rw [mul_zero]
      · show (0 : ℝ) ≤ M * 0
        rw [mul_zero]
  | succ n ih =>
      exact advectStep_bounds _ _ _ _ _ _ _ _ _ _ _ hm hM ih

lemma advectStep_row_const (vfield : Fin 2 → ℤ → ℤ → ℝ) (sfield_in : ℤ → ℤ → ℝ)
    (dir_sgn : ℤ) (streamlength num_rows num_cols : ℕ) (p : Bool) (k : ℕ)
    (s : AdvectState) (hv : ∀ r c, vfield 1 r c = 0)
    (hrow : 0 ≤ s.row_float ∧ s.row_float < (num_rows : ℝ)) :
    (advectStep vfield sfield_in dir_sgn streamlength num_rows num_cols
      p k s).row_float = s.row_float := by
  have hvr : step_vel vfield dir_sgn 1 s = 0 := by
    unfold step_vel
    rw [hv ⌊s.row_float⌋ ⌊s.col_float⌋, mul_zero]
  by_cases hdone : s.done = true
  · rw [advectStep_of_done _ _ _ _ _ _ _ _ _ hdone]
  · rw [Bool.not_eq_true] at hdone
    by_cases hstall : step_vel vfield dir_sgn 1 s = 0 ∧ step_vel vfield dir_sgn 0 s = 0
    · rw [advectStep_of_stall _ _ _ _ _ _ _ _ _ hdone hstall.1 hstall.2]
    · cases p with
      | true =>
          rw [advectStep_periodic _ _ _ _ _ _ _ _ hdone hstall]
          show pymod (s.row_float + step_vel vfield dir_sgn 1 s *
            step_time vfield dir_sgn s + (num_rows : ℝ)) (num_rows : ℝ) = s.row_float
          rw [hvr, zero_mul, add_zero]
          exact pymod_add_self _ _ hrow.1 hrow.2
      | false =>
          by_cases hin : 0 ≤ s.row_float +
              step_vel vfield dir_sgn 1 s * step_time vfield dir_sgn s ∧
              s.row_float + step_vel vfield dir_sgn 1 s * step_time vfield dir_sgn s <
                (num_rows : ℝ) ∧
              0 ≤ s.col_float + step_vel vfield dir_sgn 0 s * step_time vfield dir_sgn s ∧
              s.col_float + step_vel vfield dir_sgn 0 s * step_time vfield dir_sgn s <
                (num_cols : ℝ)
          · rw [advectStep_open_move _ _ _ _ _ _ _ _ hdone hstall hin]
            show s.row_float + step_vel vfield dir_sgn 1 s *
              step_time vfield dir_sgn s = s.row_float
            rw [hvr, zero_mul, add_zero]
          · rw [advectStep_open_exit _ _ _ _ _ _ _ _ hdone hstall hin]
            show s.row_float + step_vel vfield dir_sgn 1 s *
              step_time vfield dir_sgn s = s.row_float
            rw [hvr, zero_mul, add_zero]

lemma advectLoop_row_const (vfield : Fin 2 → ℤ → ℤ → ℝ) (sfield_in : ℤ → ℤ → ℝ)
    (start_row start_col : ℤ) (dir_sgn : ℤ) (streamlength num_rows num_cols : ℕ)
    (p : Bool) (hv : ∀ r c, vfield 1 r c = 0)
    (hr0 : 0 ≤ start_row) (hr1 : start_row < (num_rows : ℤ)) (k : ℕ) :
    (advectLoop vfield sfield_in start_row start_col dir_sgn streamlength
      num_rows num_cols p k).row_float = (start_row : ℝ) := by
  induction k with
  | zero => rfl
  | succ n ih =>
      have hrow : 0 ≤ (advectLoop vfield sfield_in start_row start_col dir_sgn
          streamlength num_rows num_cols p n).row_float ∧
          (advectLoop vfield sfield_in start_row start_col dir_sgn streamlength
            num_rows num_cols p n).row_float < (num_rows : ℝ) := by
        rw [ih]
        constructor
        · exact_mod_cast hr0
        · exact_mod_cast hr1
      show (advectStep vfield sfield_in dir_sgn streamlength num_rows num_cols
        p n _).row_float = (start_row : ℝ)
      rw [advectStep_row_const _ _ _ _ _ _ _ _ _ hv hrow]
      exact ih

/-! ### Schedule (parallel partitioning) lemmas -/

lemma runSchedule_of_not_mem (vfield : Fin 2 → ℤ → ℤ → ℝ) (sfield_in : ℤ → ℤ → ℝ)
    (streamlength num_rows num_cols : ℕ) (p : Bool) (sched : List (ℕ × ℕ))
    (g : ℕ → ℕ → ℝ) (r c : ℕ) (h : (r, c) ∉ sched) :
    runSchedule vfield sfield_in streamlength num_rows num_cols p sched g r c =
      g r c := by
  induction sched generalizing g with
  | nil => rfl
  | cons q t ih =>
      have hq : (r, c) ≠ q := fun hrc => h (hrc ▸ List.mem_cons_self q t)
      have ht : (r, c) ∉ t := fun hrc => h (List.mem_cons_of_mem q hrc)
      show runSchedule vfield sfield_in streamlength num_rows num_cols p t _ r c = g r c
      rw [ih _ ht]
      show (if r = q.1 ∧ c = q.2 then
        compute_lic_pixel vfield sfield_in streamlength num_rows num_cols p q.1 q.2
        else g r c) = g r c
      rw [if_neg]
      intro hcon
      exact hq (Prod.ext hcon.1 hcon.2)

lemma runSchedule_of_mem (vfield : Fin 2 → ℤ → ℤ → ℝ) (sfield_in : ℤ → ℤ → ℝ)
    (streamlength num_rows num_cols : ℕ) (p : Bool) (sched : List (ℕ × ℕ))
    (g : ℕ → ℕ → ℝ) (r c : ℕ) (h : (r, c) ∈ sched) :
    runSchedule vfield sfield_in streamlength num_rows num_cols p sched g r c =
      compute_lic_pixel vfield sfield_in streamlength num_rows num_cols p r c := by
  induction sched generalizing g with
  | nil => exact absurd h (List.not_mem_nil _)
  | cons q t ih =>
      by_cases ht : (r, c) ∈ t
      · exact ih _ ht
      · have hq : (r, c) = q := by
          rcases List.mem_cons.mp h with h1 | h2
          · exact h1
          · exact absurd h2 ht
        show runSchedule vfield sfield_in streamlength num_rows num_cols p t _ r c = _
        rw [runSchedule_of_not_mem _ _ _ _ _ _ _ _ _ _ ht]
        show (if r = q.1 ∧ c = q.2 then
          compute_lic_pixel vfield sfield_in streamlength num_rows num_cols p q.1 q.2
          else g r c) = _
        rw [if_pos ⟨by rw [← hq], by rw [← hq]⟩, ← hq]

/-! ### Claim theorems -/

/-- C1: for every pixel `(row, col)` of the output grid, the driver invokes
the advection engine once with direction `+1` and once with direction `-1`,
both seeded at `(row, col)`, sums the two weighted sums and the two total
weights, and the output pixel equals `sum / totalWeight` when
`totalWeight > 0` and exactly `0` otherwise (a defined real number in every
case). -/
theorem c1_driver_combines_directions (vfield : Fin 2 → ℤ → ℤ → ℝ)
    (sfield_in : ℤ → ℤ → ℝ) (streamlength num_rows num_cols : ℕ) (p : Bool)
    (row col : ℕ) :
    ((advect_streamline vfield sfield_in (row : ℤ) (col : ℤ) 1 streamlength
        num_rows num_cols p).2 +
      (advect_streamline vfield sfield_in (row : ℤ) (col : ℤ) (-1) streamlength
        num_rows num_cols p).2 > 0 →
      compute_lic vfield sfield_in streamlength num_rows num_cols p row col =
        ((advect_streamline vfield sfield_in (row : ℤ) (col : ℤ) 1 streamlength
            num_rows num_cols p).1 +
          (advect_streamline vfield sfield_in (row : ℤ) (col : ℤ) (-1) streamlength
            num_rows num_cols p).1) /
        ((advect_streamline vfield sfield_in (row : ℤ) (col : ℤ) 1 streamlength
            num_rows num_cols p).2 +
          (advect_streamline vfield sfield_in (row : ℤ) (col : ℤ) (-1) streamlength
            num_rows num_cols p).2)) ∧
    (¬ ((advect_streamline vfield sfield_in (row : ℤ) (col : ℤ) 1 streamlength
        num_rows num_cols p).2 +
      (advect_streamline vfield sfield_in (row : ℤ) (col : ℤ) (-1) streamlength
        num_rows num_cols p).2 > 0) →
      compute_lic vfield sfield_in streamlength num_rows num_cols p row col = 0) := by
  unfold compute_lic compute_lic_pixel
  constructor
  · intro h
    rw [if_pos h]
  · intro h
    rw [if_neg h]

/-- Witness for C1: on a `1 × 1` grid with an all-zero vector field the
combined total weight is `0`, and the theorem's second branch yields an
output pixel of exactly `0`. -/
theorem c1_witness :
    compute_lic (fun _ _ _ => 0) (fun _ _ => 0) 1 1 1 true 0 0 = 0 := by
  have hz : ∀ d : ℤ, advect_streamline (fun _ _ _ => (0 : ℝ)) (fun _ _ => (0 : ℝ))
      ((0 : ℕ) : ℤ) ((0 : ℕ) : ℤ) d 1 1 1 true = (0, 0) := by
    intro d
    have h := advectLoop_zero_field (fun _ _ _ => 0) (fun _ _ => 0)
      ((0 : ℕ) : ℤ) ((0 : ℕ) : ℤ) d 1 1 1 true (fun _ _ _ => rfl) 1
    unfold advect_streamline
    exact Prod.ext h.1 h.2
  refine (c1_driver_combines_directions (fun _ _ _ => 0) (fun _ _ => 0)
    1 1 1 true 0 0).2 ?_
  rw [hz 1, hz (-1)]
  norm_num

/-- C7: for every grid shape with `R > 0` and `C > 0`, if the vector field
is zero at every cell or `streamlength = 0`, then every advection call
returns total weight `0` (in fact the pair `(0, 0)`), and the output grid is
all zeros, in both periodic and open boundary modes. -/
theorem c7_zero_field_or_zero_streamlength (vfield : Fin 2 → ℤ → ℤ → ℝ)
    (sfield_in : ℤ → ℤ → ℝ) (streamlength num_rows num_cols : ℕ) (p : Bool)
    (hR : 0 < num_rows) (hC : 0 < num_cols)
    (h : (∀ i r c, vfield i r c = 0) ∨ streamlength = 0) :
    (∀ (start_row start_col : ℤ) (dir_sgn : ℤ),
      advect_streamline vfield sfield_in start_row start_col dir_sgn streamlength
        num_rows num_cols p = (0, 0)) ∧
    (∀ row col : ℕ,
      compute_lic vfield sfield_in streamlength num_rows num_cols p row col = 0) := by
  have hadv : ∀ (start_row start_col : ℤ) (dir_sgn : ℤ),
      advect_streamline vfield sfield_in start_row start_col dir_sgn streamlength
        num_rows num_cols p = (0, 0) := by
    intro start_row start_col dir_sgn
    rcases h with hv | hL
    · have h0 := advectLoop_zero_field vfield sfield_in start_row start_col dir_sgn
        streamlength num_rows num_cols p hv streamlength
      unfold advect_streamline
      exact Prod.ext h0.1 h0.2
    · rw [hL]
      rfl
  refine ⟨hadv, fun row col => ?_⟩
  unfold compute_lic compute_lic_pixel
  rw [hadv (row : ℤ) (col : ℤ) 1, hadv (row : ℤ) (col : ℤ) (-1)]
  norm_num

/-- Witness for C7: concrete instantiation on a `2 × 3` grid with the
all-zero vector field. -/
theorem c7_witness :
    compute_lic (fun _ _ _ => 0) (fun _ _ => 1) 4 2 3 true 0 0 = 0 ∧
    compute_lic (fun _ _ _ => 0) (fun _ _ => 1) 4 2 3 true 1 2 = 0 ∧
    advect_streamline (fun _ _ _ => 0) (fun _ _ => 1) 1 2 (-1) 4 2 3 true = (0, 0) := by
  have h := c7_zero_field_or_zero_streamlength (fun _ _ _ => 0) (fun _ _ => 1)
    4 2 3 true (by norm_num) (by norm_num) (Or.inl (fun _ _ _ => rfl))
  exact ⟨h.2 0 0, h.2 1 2, h.1 1 2 (-1)⟩

/-- C8: the computation is deterministic and each output cell depends only
on its own seed coordinate and the read-only inputs: running the pixel
tasks under any two schedules (partitionings / interleavings) that both
cover a pixel produces the same value at that pixel, namely the per-pixel
function `compute_lic`, regardless of the initial buffer contents. -/
theorem c8_schedule_determinism (vfield : Fin 2 → ℤ → ℤ → ℝ)
    (sfield_in : ℤ → ℤ → ℝ) (streamlength num_rows num_cols : ℕ) (p : Bool)
    (sched1 sched2 : List (ℕ × ℕ)) (g1 g2 : ℕ → ℕ → ℝ) (r c : ℕ)
    (h1 : (r, c) ∈ sched1) (h2 : (r, c) ∈ sched2) :
    runSchedule vfield sfield_in streamlength num_rows num_cols p sched1 g1 r c =
      runSchedule vfield sfield_in streamlength num_rows num_cols p sched2 g2 r c ∧
    runSchedule vfield sfield_in streamlength num_rows num_cols p sched1 g1 r c =
      compute_lic vfield sfield_in streamlength num_rows num_cols p r c := by
  have e1 := runSchedule_of_mem vfield sfield_in streamlength num_rows num_cols p
    sched1 g1 r c h1
  have e2 := runSchedule_of_mem vfield sfield_in streamlength num_rows num_cols p
    sched2 g2 r c h2
  exact ⟨by rw [e1, e2], e1⟩

/-- Witness for C8: two concrete schedules in different orders, with
different initial buffers, agree at pixel `(0, 1)`. -/
theorem c8_witness :
    ((0, 1) ∈ [((0 : ℕ), (1 : ℕ)), (0, 0)] ∧ (0, 1) ∈ [((0 : ℕ), (0 : ℕ)), (0, 1)]) ∧
    (runSchedule (fun _ _ _ => 0) (fun _ _ => 0) 1 1 2 true
        [((0 : ℕ), (1 : ℕ)), (0, 0)] (fun _ _ => 0) 0 1 =
      runSchedule (fun _ _ _ => 0) (fun _ _ => 0) 1 1 2 true
        [((0 : ℕ), (0 : ℕ)), (0, 1)] (fun _ _ => 5) 0 1 ∧
      runSchedule (fun _ _ _ => 0) (fun _ _ => 0) 1 1 2 true
        [((0 : ℕ), (1 : ℕ)), (0, 0)] (fun _ _ => 0) 0 1 =
        compute_lic (fun _ _ _ => 0) (fun _ _ => 0) 1 1 2 true 0 1) := by
  refine ⟨⟨by decide, by decide⟩, ?_⟩
  exact c8_schedule_determinism (fun _ _ _ => 0) (fun _ _ => 0) 1 1 2 true
    [((0 : ℕ), (1 : ℕ)), (0, 0)] [((0 : ℕ), (0 : ℕ)), (0, 1)]
    (fun _ _ => 0) (fun _ _ => 5) 0 1 (by decide) (by decide)

/-- C9: the weighting function satisfies
`taper(streamlength, step) = 0.5 * (1 + cos(π * step / streamlength))`; for
every `streamlength ≥ 1` it equals `1` at `step = 0`, is strictly
decreasing in `step` over `[0, streamlength)`, and reaches `0` at
`step = streamlength` (its limit as `step` approaches `streamlength`). -/
theorem c9_taper_properties (streamlength : ℕ) (h : 1 ≤ streamlength) :
    (∀ step_index : ℕ, taper_pixel_contribution streamlength step_index =
      0.5 * (1 + Real.cos (Real.pi * step_index / streamlength))) ∧
    taper_pixel_contribution streamlength 0 = 1 ∧
    (∀ s1 s2 : ℕ, s1 < s2 → s2 < streamlength →
      taper_pixel_contribution streamlength s2 <
        taper_pixel_contribution streamlength s1) ∧
    taper_pixel_contribution streamlength streamlength = 0 := by
  have hL : (0 : ℝ) < (streamlength : ℝ) := by
    exact_mod_cast Nat.lt_of_lt_of_le Nat.zero_lt_one h
  refine ⟨fun _ => rfl, ?_, ?_, ?_⟩
  · unfold taper_pixel_contribution
    rw [Nat.cast_zero, mul_zero, zero_div, Real.cos_zero]
    norm_num
  · intro s1 s2 h12 h2L
    have h1L : s1 < streamlength := lt_trans h12 h2L
    obtain ⟨ha1, hb1⟩ := taper_arg_mem streamlength s1 h1L
    obtain ⟨ha2, hb2⟩ := taper_arg_mem streamlength s2 h2L
    have hs12 : (s1 : ℝ) < (s2 : ℝ) := by exact_mod_cast h12
    have hx12 : Real.pi * s1 / streamlength < Real.pi * s2 / streamlength := by
      rw [div_lt_div_iff₀ hL hL]
      nlinarith [mul_pos (mul_pos Real.pi_pos hL) (sub_pos.mpr hs12)]
    have hcos := Real.strictAntiOn_cos ⟨ha1, hb1.le⟩ ⟨ha2, hb2.le⟩ hx12
    unfold taper_pixel_contribution
    nlinarith [hcos]
  · unfold taper_pixel_contribution
    rw [mul_div_assoc, div_self (ne_of_gt hL), mul_one, Real.cos_pi]
    norm_num

/-- Witness for C9: at `streamlength = 2` the taper equals `1` at step `0`,
is strictly smaller at step `1`, and equals `0` at step `2`. -/
theorem c9_witness :
    taper_pixel_contribution 2 0 = 1 ∧
    taper_pixel_contribution 2 1 < taper_pixel_contribution 2 0 ∧
    taper_pixel_contribution 2 2 = 0 := by
  have h := c9_taper_properties 2 (by norm_num)
  exact ⟨h.2.1, h.2.2.1 0 1 (by norm_num) (by norm_num), h.2.2.2⟩

/-- C2: in every advection step with a non-stalled velocity, the per-axis
crossing time is `(floor(pos)+1-pos)/vel` for positive velocity,
`(ceil(pos)-1-pos)/vel` for negative velocity and `+∞` for zero velocity;
the step time is the minimum of the two per-axis times, and both position
components advance simultaneously by `velocity × stepTime` (followed by the
mode's boundary handling: modulo wrap under periodic mode, unchanged under
open mode). -/
theorem c2_step_time_exact_crossing (vfield : Fin 2 → ℤ → ℤ → ℝ)
    (sfield_in : ℤ → ℤ → ℝ) (dir_sgn : ℤ) (streamlength num_rows num_cols : ℕ)
    (p : Bool) (k : ℕ) (s : AdvectState) (hdone : s.done = false)
    (hstall : ¬ (step_vel vfield dir_sgn 1 s = 0 ∧ step_vel vfield dir_sgn 0 s = 0)) :
    (∀ pos vel : ℝ,
      (0 < vel →
        delta_time pos vel = ((((⌊pos⌋ : ℝ) + 1 - pos) / vel : ℝ) : EReal)) ∧
      (vel < 0 →
        delta_time pos vel = ((((⌈pos⌉ : ℝ) - 1 - pos) / vel : ℝ) : EReal)) ∧
      (vel = 0 → delta_time pos vel = ⊤)) ∧
    step_time vfield dir_sgn s =
      (min (delta_time s.col_float (step_vel vfield dir_sgn 0 s))
        (delta_time s.row_float (step_vel vfield dir_sgn 1 s))).toReal ∧
    (p = true →
      (advectStep vfield sfield_in dir_sgn streamlength num_rows num_cols
          p k s).row_float =
        pymod (s.row_float + step_vel vfield dir_sgn 1 s * step_time vfield dir_sgn s +
          (num_rows : ℝ)) (num_rows : ℝ) ∧
      (advectStep vfield sfield_in dir_sgn streamlength num_rows num_cols
          p k s).col_float =
        pymod (s.col_float + step_vel vfield dir_sgn 0 s * step_time vfield dir_sgn s +
          (num_cols : ℝ)) (num_cols : ℝ)) ∧
    (p = false →
      (advectStep vfield sfield_in dir_sgn streamlength num_rows num_cols
          p k s).row_float =
        s.row_float + step_vel vfield dir_sgn 1 s * step_time vfield dir_sgn s ∧
      (advectStep vfield sfield_in dir_sgn streamlength num_rows num_cols
          p k s).col_float =
        s.col_float + step_vel vfield dir_sgn 0 s * step_time vfield dir_sgn s) := by
  refine ⟨fun pos vel =>
    ⟨delta_time_of_pos pos vel, delta_time_of_neg pos vel, delta_time_of_zero pos vel⟩,
    rfl, ?_, ?_⟩
  · intro hp
    subst hp
    rw [advectStep_periodic _ _ _ _ _ _ _ _ hdone hstall]
    exact ⟨rfl, rfl⟩
  · intro hp
    subst hp
    by_cases hin : 0 ≤ s.row_float +
        step_vel vfield dir_sgn 1 s * step_time vfield dir_sgn s ∧
        s.row_float + step_vel vfield dir_sgn 1 s * step_time vfield dir_sgn s <
          (num_rows : ℝ) ∧
        0 ≤ s.col_float + step_vel vfield dir_sgn 0 s * step_time vfield dir_sgn s ∧
        s.col_float + step_vel vfield dir_sgn 0 s * step_time vfield dir_sgn s <
          (num_cols : ℝ)
    · rw [advectStep_open_move _ _ _ _ _ _ _ _ hdone hstall hin]
      exact ⟨rfl, rfl⟩
    · rw [advectStep_open_exit _ _ _ _ _ _ _ _ hdone hstall hin]
      exact ⟨rfl, rfl⟩

/-- Witness for C2: a uniform rightward field (component 0 equal to `1`,
component 1 equal to `0`) on a `4 × 4` periodic grid, seeded at the origin:
the column position after one step is the wrapped advanced position, and
the crossing time from position `0` at velocity `1` is `1`. -/
theorem c2_witness :
    (advectStep (fun i _ _ => if i = 0 then (1 : ℝ) else 0) (fun _ _ => 0) 1 2 4 4
        true 0 (initState 0 0)).col_float =
      pymod ((initState 0 0).col_float +
        step_vel (fun i _ _ => if i = 0 then (1 : ℝ) else 0) 1 0 (initState 0 0) *
          step_time (fun i _ _ => if i = 0 then (1 : ℝ) else 0) 1 (initState 0 0) +
        ((4 : ℕ) : ℝ)) ((4 : ℕ) : ℝ) ∧
    delta_time 0 1 = ((1 : ℝ) : EReal) := by
  have hstall : ¬ (step_vel (fun i _ _ => if i = 0 then (1 : ℝ) else 0) 1 1
      (initState 0 0) = 0 ∧
      step_vel (fun i _ _ => if i = 0 then (1 : ℝ) else 0) 1 0 (initState 0 0) = 0) := by
    intro hcon
    have := hcon.2
    simp [step_vel, initState] at this
  have h := c2_step_time_exact_crossing (fun i _ _ => if i = 0 then (1 : ℝ) else 0)
    (fun _ _ => 0) 1 2 4 4 true 0 (initState 0 0) rfl hstall
  refine ⟨(h.2.2.1 rfl).2, ?_⟩
  rw [(h.1 0 1).1 one_pos]
  norm_num

/-- C3: the advection engine reads vector-field component 0 as the
column-direction velocity and component 1 as the row-direction velocity;
for every vector field whose component 1 is zero everywhere, the row
coordinate of the streamline position never changes during an advection
call seeded inside the grid. -/
theorem c3_component_axis_convention (vfield : Fin 2 → ℤ → ℤ → ℝ)
    (sfield_in : ℤ → ℤ → ℝ) (start_row start_col : ℤ) (dir_sgn : ℤ)
    (streamlength num_rows num_cols : ℕ) (p : Bool)
    (hv : ∀ r c, vfield 1 r c = 0)
    (hr0 : 0 ≤ start_row) (hr1 : start_row < (num_rows : ℤ)) :
    (∀ s : AdvectState,
      step_vel vfield dir_sgn 0 s =
        (dir_sgn : ℝ) * vfield 0 ⌊s.row_float⌋ ⌊s.col_float⌋ ∧
      step_vel vfield dir_sgn 1 s =
        (dir_sgn : ℝ) * vfield 1 ⌊s.row_float⌋ ⌊s.col_float⌋) ∧
    ∀ k, (advectLoop vfield sfield_in start_row start_col dir_sgn streamlength
      num_rows num_cols p k).row_float = (start_row : ℝ) := by
  exact ⟨fun s => ⟨rfl, rfl⟩,
    advectLoop_row_const vfield sfield_in start_row start_col dir_sgn streamlength
      num_rows num_cols p hv hr0 hr1⟩

/-- Witness for C3: under the uniform rightward field on a `4 × 4` periodic
grid, the row coordinate is still `0` after two steps from seed `(0, 0)`. -/
theorem c3_witness :
    (advectLoop (fun i _ _ => if i = 0 then (1 : ℝ) else 0) (fun _ _ => 0)
      0 0 1 2 4 4 true 2).row_float = ((0 : ℤ) : ℝ) := by
  exact (c3_component_axis_convention (fun i _ _ => if i = 0 then (1 : ℝ) else 0)
    (fun _ _ => 0) 0 0 1 2 4 4 true
    (fun _ _ => if_neg (by decide)) (by decide) (by decide)).2 2

/-- C4: under periodic boundary mode, for every advection call seeded inside
the grid, the position stays inside `[0,R) × [0,C)` after every step, every
cell index sampled (the floor of the position) is in bounds, and the loop
never halts for any reason other than a stall (zero sampled velocity). -/
theorem c4_periodic_invariants (vfield : Fin 2 → ℤ → ℤ → ℝ)
    (sfield_in : ℤ → ℤ → ℝ) (start_row start_col : ℤ) (dir_sgn : ℤ)
    (streamlength num_rows num_cols : ℕ)
    (hR : 0 < num_rows) (hC : 0 < num_cols)
    (hr0 : 0 ≤ start_row) (hr1 : start_row < (num_rows : ℤ))
    (hc0 : 0 ≤ start_col) (hc1 : start_col < (num_cols : ℤ)) :
    ∀ k,
      inDomain num_rows num_cols
        (advectLoop vfield sfield_in start_row start_col dir_sgn streamlength
          num_rows num_cols true k).row_float
        (advectLoop vfield sfield_in start_row start_col dir_sgn streamlength
          num_rows num_cols true k).col_float ∧
      (0 ≤ ⌊(advectLoop vfield sfield_in start_row start_col dir_sgn streamlength
          num_rows num_cols true k).row_float⌋ ∧
        ⌊(advectLoop vfield sfield_in start_row start_col dir_sgn streamlength
          num_rows num_cols true k).row_float⌋ < (num_rows : ℤ) ∧
        0 ≤ ⌊(advectLoop vfield sfield_in start_row start_col dir_sgn streamlength
          num_rows num_cols true k).col_float⌋ ∧
        ⌊(advectLoop vfield sfield_in start_row start_col dir_sgn streamlength
          num_rows num_cols true k).col_float⌋ < (num_cols : ℤ)) ∧
      ((advectLoop vfield sfield_in start_row start_col dir_sgn streamlength
          num_rows num_cols true (k + 1)).done = true →
        (advectLoop vfield sfield_in start_row start_col dir_sgn streamlength
          num_rows num_cols true k).done = true ∨
        (step_vel vfield dir_sgn 1
            (advectLoop vfield sfield_in start_row start_col dir_sgn streamlength
              num_rows num_cols true k) = 0 ∧
          step_vel vfield dir_sgn 0
            (advectLoop vfield sfield_in start_row start_col dir_sgn streamlength
              num_rows num_cols true k) = 0)) := by
  intro k
  have hin := advectLoop_inDomain_periodic vfield sfield_in start_row start_col
    dir_sgn streamlength num_rows num_cols hR hC hr0 hr1 hc0 hc1 k
  have hfl := floor_mem_of_inDomain num_rows num_cols _ _ hin
  exact ⟨hin, ⟨hfl.1.1, hfl.1.2, hfl.2.1, hfl.2.2⟩,
    fun hd => advectStep_done_periodic vfield sfield_in dir_sgn streamlength
      num_rows num_cols k _ hd⟩

/-- Witness for C4: concrete periodic run on a `1 × 1` grid with a zero
field, checked at step `0`. -/
theorem c4_witness :
    inDomain 1 1
      (advectLoop (fun _ _ _ => 0) (fun _ _ => 0) 0 0 1 1 1 1 true 0).row_float
      (advectLoop (fun _ _ _ => 0) (fun _ _ => 0) 0 0 1 1 1 1 true 0).col_float := by
  exact ((c4_periodic_invariants (fun _ _ _ => 0) (fun _ _ => 0) 0 0 1 1 1 1
    (by norm_num) (by norm_num) (by decide) (by decide) (by decide) (by decide)) 0).1

/-- C5: under open boundary mode, the loop halts at the first step whose
advanced position leaves `[0,R) × [0,C)`, without wrapping and without
adding that step's weight or sampled value (the accumulators are left
unchanged); and as long as the loop is still running every sampled cell
index is inside `[0,R) × [0,C)`. -/
theorem c5_open_boundary_exit (vfield : Fin 2 → ℤ → ℤ → ℝ)
    (sfield_in : ℤ → ℤ → ℝ) (start_row start_col : ℤ) (dir_sgn : ℤ)
    (streamlength num_rows num_cols : ℕ) (k : ℕ)
    (hr0 : 0 ≤ start_row) (hr1 : start_row < (num_rows : ℤ))
    (hc0 : 0 ≤ start_col) (hc1 : start_col < (num_cols : ℤ)) :
    (∀ (j : ℕ) (s : AdvectState), s.done = false →
      ¬ (step_vel vfield dir_sgn 1 s = 0 ∧ step_vel vfield dir_sgn 0 s = 0) →
      ¬ (0 ≤ s.row_float + step_vel vfield dir_sgn 1 s * step_time vfield dir_sgn s ∧
        s.row_float + step_vel vfield dir_sgn 1 s * step_time vfield dir_sgn s <
          (num_rows : ℝ) ∧
        0 ≤ s.col_float + step_vel vfield dir_sgn 0 s * step_time vfield dir_sgn s ∧
        s.col_float + step_vel vfield dir_sgn 0 s * step_time vfield dir_sgn s <
          (num_cols : ℝ)) →
      advectStep vfield sfield_in dir_sgn streamlength num_rows num_cols false j s =
        { s with
          row_float := s.row_float +
            step_vel vfield dir_sgn 1 s * step_time vfield dir_sgn s
          col_float := s.col_float +
            step_vel vfield dir_sgn 0 s * step_time vfield dir_sgn s
          done := true }) ∧
    ((advectLoop vfield sfield_in start_row start_col dir_sgn streamlength
        num_rows num_cols false k).done = false →
      inDomain num_rows num_cols
        (advectLoop vfield sfield_in start_row start_col dir_sgn streamlength
          num_rows num_cols false k).row_float
        (advectLoop vfield sfield_in start_row start_col dir_sgn streamlength
          num_rows num_cols false k).col_float ∧
      0 ≤ ⌊(advectLoop vfield sfield_in start_row start_col dir_sgn streamlength
          num_rows num_cols false k).row_float⌋ ∧
      ⌊(advectLoop vfield sfield_in start_row start_col dir_sgn streamlength
          num_rows num_cols false k).row_float⌋ < (num_rows : ℤ) ∧
      0 ≤ ⌊(advectLoop vfield sfield_in start_row start_col dir_sgn streamlength
          num_rows num_cols false k).col_float⌋ ∧
      ⌊(advectLoop vfield sfield_in start_row start_col dir_sgn streamlength
          num_rows num_cols false k).col_float⌋ < (num_cols : ℤ)) := by
  constructor
  · intro j s hd hs ho
    exact advectStep_open_exit vfield sfield_in dir_sgn streamlength num_rows
      num_cols j s hd hs ho
  · intro hk
    have hin := advectLoop_inDomain_open vfield sfield_in start_row start_col
      dir_sgn streamlength num_rows num_cols hr0 hr1 hc0 hc1 k hk
    have hfl := floor_mem_of_inDomain num_rows num_cols _ _ hin
    exact ⟨hin, hfl.1.1, hfl.1.2, hfl.2.1, hfl.2.2⟩

/-- Witness for C5: concrete open-boundary run on a `1 × 1` grid with a zero
field: the running loop at step `0` is inside the domain. -/
theorem c5_witness :
    inDomain 1 1
      (advectLoop (fun _ _ _ => 0) (fun _ _ => 0) 0 0 1 1 1 1 false 0).row_float
      (advectLoop (fun _ _ _ => 0) (fun _ _ => 0) 0 0 1 1 1 1 false 0).col_float := by
  exact ((c5_open_boundary_exit (fun _ _ _ => 0) (fun _ _ => 0) 0 0 1 1 1 1 0
    (by decide) (by decide) (by decide) (by decide)).2 rfl).1

/-- C6: if both direction-scaled velocity components sampled at the current
cell are zero, the step halts the loop immediately, leaving accumulators and
position unchanged; if exactly one component is zero, its per-axis crossing
time is `+∞` and the minimum selects the other, finite axis time; whenever
the streamline has not stalled, the chosen minimum is a finite real (no
division fault or undefined value). -/
theorem c6_stall_and_zero_division (vfield : Fin 2 → ℤ → ℤ → ℝ)
    (sfield_in : ℤ → ℤ → ℝ) (dir_sgn : ℤ) (streamlength num_rows num_cols : ℕ)
    (p : Bool) (k : ℕ) (s : AdvectState) (hdone : s.done = false) :
    (step_vel vfield dir_sgn 1 s = 0 → step_vel vfield dir_sgn 0 s = 0 →
      advectStep vfield sfield_in dir_sgn streamlength num_rows num_cols p k s =
        { s with done := true }) ∧
    (step_vel vfield dir_sgn 1 s = 0 → step_vel vfield dir_sgn 0 s ≠ 0 →
      delta_time s.row_float (step_vel vfield dir_sgn 1 s) = ⊤ ∧
      min (delta_time s.col_float (step_vel vfield dir_sgn 0 s))
          (delta_time s.row_float (step_vel vfield dir_sgn 1 s)) =
        delta_time s.col_float (step_vel vfield dir_sgn 0 s) ∧
      ∃ t : ℝ, delta_time s.col_float (step_vel vfield dir_sgn 0 s) = (t : EReal)) ∧
    (step_vel vfield dir_sgn 0 s = 0 → step_vel vfield dir_sgn 1 s ≠ 0 →
      delta_time s.col_float (step_vel vfield dir_sgn 0 s) = ⊤ ∧
      min (delta_time s.col_float (step_vel vfield dir_sgn 0 s))
          (delta_time s.row_float (step_vel vfield dir_sgn 1 s)) =
        delta_time s.row_float (step_vel vfield dir_sgn 1 s) ∧
      ∃ t : ℝ, delta_time s.row_float (step_vel vfield dir_sgn 1 s) = (t : EReal)) ∧
    (¬ (step_vel vfield dir_sgn 1 s = 0 ∧ step_vel vfield dir_sgn 0 s = 0) →
      ∃ t : ℝ,
        min (delta_time s.col_float (step_vel vfield dir_sgn 0 s))
          (delta_time s.row_float (step_vel vfield dir_sgn 1 s)) = (t : EReal)) := by
  refine ⟨?_, ?_, ?_, ?_⟩
  · intro h1 h0
    exact advectStep_of_stall vfield sfield_in dir_sgn streamlength num_rows
      num_cols p k s hdone h1 h0
  · intro h1 h0
    have htop := delta_time_of_zero s.row_float _ h1
    refine ⟨htop, ?_, delta_time_finite s.col_float _ h0⟩
    rw [htop]
    exact min_eq_left le_top
  · intro h0 h1
    have htop := delta_time_of_zero s.col_float _ h0
    refine ⟨htop, ?_, delta_time_finite s.row_float _ h1⟩
    rw [htop]
    exact min_eq_right le_top
  · intro h
    exact min_delta_time_finite s.row_float s.col_float _ _ h

/-- Witness for C6: with the uniform rightward field (row component zero,
column component one) the row-axis crossing time is `+∞`. -/
theorem c6_witness :
    step_vel (fun i _ _ => if i = 0 then (1 : ℝ) else 0) 1 1 (initState 0 0) = 0 ∧
    step_vel (fun i _ _ => if i = 0 then (1 : ℝ) else 0) 1 0 (initState 0 0) ≠ 0 ∧
    delta_time (initState 0 0).row_float
      (step_vel (fun i _ _ => if i = 0 then (1 : ℝ) else 0) 1 1 (initState 0 0)) = ⊤ := by
  have hz : step_vel (fun i _ _ => if i = 0 then (1 : ℝ) else 0) 1 1
      (initState 0 0) = 0 := by
    simp [step_vel, initState]
  have hnz : step_vel (fun i _ _ => if i = 0 then (1 : ℝ) else 0) 1 0
      (initState 0 0) ≠ 0 := by
    simp [step_vel, initState]
  exact ⟨hz, hnz,
    ((c6_stall_and_zero_division (fun i _ _ => if i = 0 then (1 : ℝ) else 0)
      (fun _ _ => 0) 1 2 4 4 true 0 (initState 0 0) rfl).2.1 hz hnz).1⟩

/-- C10: every contribution weight added inside the loop is strictly
positive (the taper at step indices below `streamlength`), and each output
pixel is either exactly `0` or a weight-normalised convex combination of
scalar-field values, hence lies within any global bounds `[m, M]` of the
input scalar field. -/
theorem c10_output_range (vfield : Fin 2 → ℤ → ℤ → ℝ) (sfield_in : ℤ → ℤ → ℝ)
    (streamlength num_rows num_cols : ℕ) (p : Bool) (m M : ℝ)
    (hm : ∀ r c, m ≤ sfield_in r c) (hM : ∀ r c, sfield_in r c ≤ M) :
    (∀ step_index, step_index < streamlength →
      0 < taper_pixel_contribution streamlength step_index) ∧
    ∀ row col : ℕ,
      compute_lic vfield sfield_in streamlength num_rows num_cols p row col = 0 ∨
      (m ≤ compute_lic vfield sfield_in streamlength num_rows num_cols p row col ∧
        compute_lic vfield sfield_in streamlength num_rows num_cols p row col ≤ M) := by
  refine ⟨fun i hi => taper_pos streamlength i hi, fun row col => ?_⟩
  have hf := advectLoop_bounds vfield sfield_in (row : ℤ) (col : ℤ) 1 streamlength
    num_rows num_cols p m M hm hM streamlength
  have hb := advectLoop_bounds vfield sfield_in (row : ℤ) (col : ℤ) (-1) streamlength
    num_rows num_cols p m M hm hM streamlength
  unfold compute_lic compute_lic_pixel advect_streamline
  set F := advectLoop vfield sfield_in (row : ℤ) (col : ℤ) 1 streamlength
    num_rows num_cols p streamlength with hF
  set B := advectLoop vfield sfield_in (row : ℤ) (col : ℤ) (-1) streamlength
    num_rows num_cols p streamlength with hB
  show (if F.total_weight + B.total_weight > 0 then
      (F.weighted_sum + B.weighted_sum) / (F.total_weight + B.total_weight)
      else 0) = 0 ∨ _
  by_cases hpos : F.total_weight + B.total_weight > 0
  · rw [if_pos hpos]
    right
    constructor
    · rw [le_div_iff₀ hpos]
      nlinarith [hf.2.1, hb.2.1]
    · rw [div_le_iff₀ hpos]
      nlinarith [hf.2.2, hb.2.2]
  · rw [if_neg hpos]
    exact Or.inl rfl

/-- Witness for C10: constant-zero scalar field with bounds `m = M = 0`:
the taper at step `1` of `2` is positive and the output pixel is `0` or
within `[0, 0]`. -/
theorem c10_witness :
    0 < taper_pixel_contribution 2 1 ∧
    (compute_lic (fun _ _ _ => 0) (fun _ _ => 0) 2 1 1 true 0 0 = 0 ∨
      (0 ≤ compute_lic (fun _ _ _ => 0) (fun _ _ => 0) 2 1 1 true 0 0 ∧
        compute_lic (fun _ _ _ => 0) (fun _ _ => 0) 2 1 1 true 0 0 ≤ 0)) := by
  have h := c10_output_range (fun _ _ _ => 0) (fun _ _ => 0) 2 1 1 true 0 0
    (fun _ _ => le_refl 0) (fun _ _ => le_refl 0)
  exact ⟨h.1 1 (by norm_num), h.2 0 0⟩

end
